import Mathlib

/-!
# Verification of the CSV diff tool (csv-diff-tool)

Shallow embedding of the repository's core modules:

* `src/csv_compare/csv_parser.py` — `CSVParser` and `NullCSVParser`
  (tabular data model, column de-duplication, index column, mutations).
* `src/csv_diff_tool/comparer.py` — `CSVComparer.compare`.
* `src/csv_comparer/csv_compare_output.py` — `CSVCompareOutput`.

Modelling conventions:

* A Python row dictionary (`Dict[str, str]`) is an insertion-ordered
  association list with unique keys; `insertPy` implements `d[k] = v`
  (update in place if the key exists, append otherwise) and `lookupPy`
  implements `d.get(k)`.
* Python sets of strings have no specified iteration order; wherever the
  source converts a set to a list (`list(set_a - set_b)`), the embedding
  uses a canonical duplicate-free list (`List.dedup` / `List.filter`).
  Every claim about those lists is membership- or emptiness-based, hence
  insensitive to this choice of order.
* The standard-library CSV tokenizer is an external collaborator of the
  core (per the design: quoting/escaping are delegated); the embedding
  models it for plain comma-separated, newline-separated text without
  quoting, which is the fragment the core's own logic depends on.
* `f"{val}.{n}"` is `val ++ "." ++ Nat.repr n`.
-/

namespace CsvDiff

/-! ## Python dictionaries as insertion-ordered association lists -/

/-- A row record: a Python `Dict[str, str]` as an insertion-ordered
association list (keys unique for every dictionary the code builds). -/
abbrev Row := List (String × String)

/-- `d.get(k)` returning `none` when the key is absent (first binding wins;
a Python dict has at most one binding per key). -/
def lookupPy : Row → String → Option String
  | [], _ => none
  | e :: r, k => if e.1 = k then some e.2 else lookupPy r k

/-- `d[k] = v`: replace the value at `k` in place if the key is bound,
else append `(k, v)` at the end (Python dict insertion-order semantics). -/
def insertPy : Row → String → String → Row
  | [], k, v => [(k, v)]
  | e :: r, k, v => if e.1 = k then (k, v) :: r else e :: insertPy r k v

theorem lookupPy_insertPy_self (row : Row) (k v : String) :
    lookupPy (insertPy row k v) k = some v := by
  induction row with
  | nil => simp [insertPy, lookupPy]
  | cons e r ih =>
    by_cases he : e.1 = k
    · simp [insertPy, lookupPy, he]
    · simp [insertPy, lookupPy, he, ih]

theorem lookupPy_insertPy_other (row : Row) (k v t : String) (hne : t ≠ k) :
    lookupPy (insertPy row k v) t = lookupPy row t := by
  have hkt : ¬ k = t := fun h => hne h.symm
  induction row with
  | nil => simp [insertPy, lookupPy, hkt]
  | cons e r ih =>
    by_cases he : e.1 = k
    · have het : ¬ e.1 = t := by rw [he]; exact hkt
      simp [insertPy, lookupPy, he, hkt, het]
    · rw [show insertPy (e :: r) k v = e :: insertPy r k v from by
        simp [insertPy, he]]
      by_cases het : e.1 = t
      · simp [lookupPy, het]
      · simp [lookupPy, het, ih]

/-- The keys bound in a row. -/
def rowKeys (row : Row) : List String := row.map (fun e => e.1)

theorem rowKeys_insertPy (row : Row) (k v : String) :
    ∀ t, t ∈ rowKeys (insertPy row k v) ↔ (t ∈ rowKeys row ∨ t = k) := by
  intro t
  induction row with
  | nil => simp [insertPy, rowKeys, eq_comm]
  | cons e r ih =>
    by_cases he : e.1 = k
    · rw [show insertPy (e :: r) k v = (k, v) :: r from by simp [insertPy, he]]
      simp only [rowKeys, List.map_cons, List.mem_cons, he]
      tauto
    · rw [show insertPy (e :: r) k v = e :: insertPy r k v from by
        simp [insertPy, he]]
      simp only [rowKeys, List.map_cons, List.mem_cons]
      have hr : (insertPy r k v).map (fun e => e.1) = rowKeys (insertPy r k v) := rfl
      rw [hr]
      rw [show r.map (fun e => e.1) = rowKeys r from rfl]
      rw [ih]
      tauto

/-- `insertPy` preserves key-uniqueness. -/
theorem nodup_rowKeys_insertPy (row : Row) (k v : String)
    (h : (rowKeys row).Nodup) : (rowKeys (insertPy row k v)).Nodup := by
  induction row with
  | nil => simp [insertPy, rowKeys]
  | cons e r ih =>
    simp only [rowKeys, List.map_cons, List.nodup_cons] at h
    by_cases he : e.1 = k
    · rw [show insertPy (e :: r) k v = (k, v) :: r from by simp [insertPy, he]]
      simp only [rowKeys, List.map_cons, List.nodup_cons]
      refine ⟨?_, h.2⟩
      rw [show r.map (fun e => e.1) = rowKeys r from rfl]
      intro hk
      exact h.1 (by rw [show r.map (fun e => e.1) = rowKeys r from rfl]; rw [he]; exact hk)
    · rw [show insertPy (e :: r) k v = e :: insertPy r k v from by
        simp [insertPy, he]]
      simp only [rowKeys, List.map_cons, List.nodup_cons]
      refine ⟨?_, ih h.2⟩
      intro hmem
      rw [show (insertPy r k v).map (fun e => e.1) = rowKeys (insertPy r k v) from rfl] at hmem
      rcases (rowKeys_insertPy r k v e.1).1 hmem with h2 | h2
      · exact h.1 (by rw [show r.map (fun e => e.1) = rowKeys r from rfl]; exact h2)
      · exact he h2

/-! ## Injectivity of decimal rendering (`Nat.repr`)

The de-duplication routine generates candidate names `f"{val}.{n}"` for
`n = 1, 2, …`; termination of its probe loop rests on these candidates
being pairwise distinct, i.e. on `Nat.repr` being injective.  Neither
core nor Mathlib states this, so it is proved here from the definition
of `Nat.toDigitsCore`. -/

theorem toDigitsCore_succ (b f n : Nat) (ds : List Char) :
    Nat.toDigitsCore b (f + 1) n ds =
      if n / b = 0 then Nat.digitChar (n % b) :: ds
      else Nat.toDigitsCore b f (n / b) (Nat.digitChar (n % b) :: ds) := rfl

theorem toDigitsCore_append (b : Nat) :
    ∀ (f n : Nat) (ds : List Char),
      Nat.toDigitsCore b f n ds = Nat.toDigitsCore b f n [] ++ ds := by
  intro f
  induction f with
  | zero => intro n ds; simp [Nat.toDigitsCore]
  | succ f ih =>
    intro n ds
    rw [toDigitsCore_succ, toDigitsCore_succ]
    by_cases h : n / b = 0
    · simp [h]
    · simp only [if_neg h]
      rw [ih (n / b) (Nat.digitChar (n % b) :: ds),
        ih (n / b) (Nat.digitChar (n % b) :: ([] : List Char))]
      simp

theorem toDigitsCore_fuel (b : Nat) (hb : 2 ≤ b) :
    ∀ (f g n : Nat) (ds : List Char), n < b ^ f → n < b ^ g → 0 < f → 0 < g →
      Nat.toDigitsCore b f n ds = Nat.toDigitsCore b g n ds := by
  intro f
  induction f with
  | zero => intro g n ds _ _ hf _; exact absurd hf (by omega)
  | succ f ih =>
    intro g n ds hnf hng _ hg
    match g, hg with
    | g + 1, _ =>
      rw [toDigitsCore_succ, toDigitsCore_succ]
      by_cases h : n / b = 0
      · simp [h]
      · simp only [if_neg h]
        have hb0 : 0 < b := by omega
        have hf2 : n / b < b ^ f := by
          rw [Nat.div_lt_iff_lt_mul hb0]
          calc n < b ^ (f + 1) := hnf
            _ = b ^ f * b := by rw [Nat.pow_succ]
        have hg2 : n / b < b ^ g := by
          rw [Nat.div_lt_iff_lt_mul hb0]
          calc n < b ^ (g + 1) := hng
            _ = b ^ g * b := by rw [Nat.pow_succ]
        have hfpos : 0 < f := by
          rcases Nat.eq_zero_or_pos f with h0 | h0
          · subst h0
            exact absurd (Nat.div_eq_of_lt (by simpa using hnf)) h
          · exact h0
        have hgpos : 0 < g := by
          rcases Nat.eq_zero_or_pos g with h0 | h0
          · subst h0
            exact absurd (Nat.div_eq_of_lt (by simpa using hng)) h
          · exact h0
        exact ih g (n / b) _ hf2 hg2 hfpos hgpos

theorem lt_pow_self_succ (b : Nat) (hb : 2 ≤ b) (x : Nat) : x < b ^ (x + 1) := by
  calc x < 2 ^ x := Nat.lt_two_pow x
    _ ≤ b ^ x := Nat.pow_le_pow_left hb x
    _ ≤ b ^ (x + 1) := Nat.pow_le_pow_right (by omega) (by omega)

theorem toDigits_of_lt (b : Nat) (n : Nat) (h : n < b) :
    Nat.toDigits b n = [Nat.digitChar n] := by
  unfold Nat.toDigits
  rw [toDigitsCore_succ]
  have h0 : n / b = 0 := Nat.div_eq_of_lt h
  simp [h0, Nat.mod_eq_of_lt h]

theorem toDigits_of_ge (b : Nat) (hb : 2 ≤ b) (n : Nat) (h : b ≤ n) :
    Nat.toDigits b n = Nat.toDigits b (n / b) ++ [Nat.digitChar (n % b)] := by
  have hb0 : 0 < b := by omega
  have hn0 : 0 < n := by omega
  have h0 : ¬ n / b = 0 := by
    have : 1 ≤ n / b := (Nat.one_le_div_iff hb0).2 h
    omega
  show Nat.toDigitsCore b (n + 1) n [] = _
  rw [toDigitsCore_succ, if_neg h0, toDigitsCore_append]
  congr 1
  show Nat.toDigitsCore b n (n / b) [] = Nat.toDigitsCore b (n / b + 1) (n / b) []
  have hA : n / b < b ^ n :=
    calc n / b ≤ n := Nat.div_le_self n b
      _ < 2 ^ n := Nat.lt_two_pow n
      _ ≤ b ^ n := Nat.pow_le_pow_left hb n
  exact toDigitsCore_fuel b hb n (n / b + 1) (n / b) [] hA
    (lt_pow_self_succ b hb (n / b)) hn0 (Nat.succ_pos _)

theorem toDigitsCore_ne_nil (b : Nat) :
    ∀ (f n : Nat) (ds : List Char), 0 < f → Nat.toDigitsCore b f n ds ≠ [] := by
  intro f
  induction f with
  | zero => intro n ds hf; omega
  | succ f ih =>
    intro n ds _
    rw [toDigitsCore_succ]
    by_cases h : n / b = 0
    · simp [h]
    · simp only [if_neg h]
      rcases Nat.eq_zero_or_pos f with h0 | h0
      · subst h0; simp [Nat.toDigitsCore]
      · exact ih (n / b) _ h0

theorem toDigits_ne_nil (b n : Nat) : Nat.toDigits b n ≠ [] :=
  toDigitsCore_ne_nil b (n + 1) n [] (by omega)

theorem digitChar_inj_lt_ten :
    ∀ m, m < 10 → ∀ n, n < 10 → Nat.digitChar m = Nat.digitChar n → m = n := by
  decide

theorem toDigits_ten_inj : ∀ m n : Nat, Nat.toDigits 10 m = Nat.toDigits 10 n → m = n := by
  intro m
  induction m using Nat.strong_induction_on with
  | _ m ih =>
    intro n h
    by_cases hm : m < 10 <;> by_cases hn : n < 10
    · rw [toDigits_of_lt 10 m hm, toDigits_of_lt 10 n hn] at h
      exact digitChar_inj_lt_ten m hm n hn (by simpa using h)
    · rw [toDigits_of_lt 10 m hm, toDigits_of_ge 10 (by omega) n (by omega)] at h
      have hlen := congrArg List.length h
      rw [List.length_append] at hlen
      simp only [List.length_cons, List.length_nil] at hlen
      have hne := toDigits_ne_nil 10 (n / 10)
      have hpos : 0 < (Nat.toDigits 10 (n / 10)).length := List.length_pos.2 hne
      omega
    · rw [toDigits_of_ge 10 (by omega) m (by omega), toDigits_of_lt 10 n hn] at h
      have hlen := congrArg List.length h
      rw [List.length_append] at hlen
      simp only [List.length_cons, List.length_nil] at hlen
      have hne := toDigits_ne_nil 10 (m / 10)
      have hpos : 0 < (Nat.toDigits 10 (m / 10)).length := List.length_pos.2 hne
      omega
    · rw [toDigits_of_ge 10 (by omega) m (by omega),
        toDigits_of_ge 10 (by omega) n (by omega)] at h
      have hsp := List.append_inj' h (by simp)
      have hq : m / 10 = n / 10 :=
        ih (m / 10) (Nat.div_lt_self (by omega) (by omega)) (n / 10) hsp.1
      have hr : m % 10 = n % 10 :=
        digitChar_inj_lt_ten (m % 10) (Nat.mod_lt m (by omega)) (n % 10)
          (Nat.mod_lt n (by omega)) (by simpa using hsp.2)
      omega

theorem nat_repr_inj : ∀ m n : Nat, Nat.repr m = Nat.repr n → m = n := by
  intro m n h
  apply toDigits_ten_inj
  have : (Nat.toDigits 10 m).asString = (Nat.toDigits 10 n).asString := h
  have hd := congrArg String.data this
  simpa [List.asString] using hd

/-- `f"{val}.{n}"`: the candidate name the de-duplication routine probes. -/
def suffixed (val : String) (n : Nat) : String := val ++ "." ++ Nat.repr n

theorem suffixed_inj (val : String) (m n : Nat) (h : suffixed val m = suffixed val n) :
    m = n := by
  apply nat_repr_inj
  unfold suffixed at h
  have hd := congrArg String.data h
  simp only [String.data_append] at hd
  have := List.append_cancel_left hd
  exact String.ext this

/-! ## `CSVParser._unique_vals` (csv_parser.py lines 283–306)

```python
result = list(values)
unique_values = set()
suffix_counts = defaultdict(int)
for idx, val in enumerate(result):
    if val not in unique_values:
        unique_values.add(val)
    else:
        while True:
            suffix_counts[val] += 1
            new_val = f"\x7bval\x7d.\x7bsuffix_counts[val]\x7d"
            if new_val not in unique_values:
                unique_values.add(new_val)
                result[idx] = new_val
                break
return result
```

The `while True` loop is embedded with explicit fuel; `seen.length + 1`
probes always suffice (`probeLoop_some` below, by pigeonhole on the
injectivity of `suffixed val`), so the fuelled function agrees with the
source loop everywhere. -/

/-- The inner `while True` probe loop: starting above counter `c`, keep
incrementing until `f"{val}.{c}"` is not in the seen set; returns the
fresh name and the final counter. -/
def probeLoop (seen : List String) (val : String) : Nat → Nat → Option (String × Nat)
  | 0, _ => none
  | fuel + 1, c =>
    let new_val := suffixed val (c + 1)
    if new_val ∈ seen then probeLoop seen val fuel (c + 1)
    else some (new_val, c + 1)

/-- State of the de-duplication fold: the `unique_values` seen set (most
recent first) and the `suffix_counts` per-name counters. -/
structure DedupeState where
  seen : List String
  counts : String → Nat

/-- One iteration of the `for idx, val in enumerate(result)` loop. -/
def uniqueValsStep (st : DedupeState) (val : String) : DedupeState × String :=
  if val ∈ st.seen then
    match probeLoop st.seen val (st.seen.length + 1) (st.counts val) with
    | some (new_val, c) =>
        (⟨new_val :: st.seen, fun v => if v = val then c else st.counts v⟩, new_val)
    | none => (st, val)  -- unreachable: see `probeLoop_some`
  else
    (⟨val :: st.seen, st.counts⟩, val)

def uniqueValsAux : DedupeState → List String → List String
  | _, [] => []
  | st, val :: rest =>
    let p := uniqueValsStep st val
    p.2 :: uniqueValsAux p.1 rest

/-- `CSVParser._unique_vals`. -/
def unique_vals (values : List String) : List String :=
  uniqueValsAux ⟨[], fun _ => 0⟩ values

theorem probeLoop_spec (seen : List String) (val : String) :
    ∀ (fuel c : Nat) (out : String) (n : Nat),
      probeLoop seen val fuel c = some (out, n) →
      out = suffixed val n ∧ c < n ∧ out ∉ seen ∧
        ∀ m, c < m → m < n → suffixed val m ∈ seen := by
  intro fuel
  induction fuel with
  | zero => intro c out n h; exact absurd h (by simp [probeLoop])
  | succ fuel ih =>
    intro c out n h
    rw [probeLoop] at h
    by_cases hmem : suffixed val (c + 1) ∈ seen
    · simp only [if_pos hmem] at h
      obtain ⟨ho, hc, hno, hall⟩ := ih (c + 1) out n h
      refine ⟨ho, by omega, hno, ?_⟩
      intro m hm1 hm2
      rcases Nat.lt_or_ge (c + 1) m with h2 | h2
      · exact hall m h2 hm2
      · have : m = c + 1 := by omega
        exact this ▸ hmem
    · simp only [if_neg hmem, Option.some.injEq, Prod.mk.injEq] at h
      obtain ⟨h1, h2⟩ := h
      subst h2
      refine ⟨h1.symm, by omega, h1 ▸ hmem, ?_⟩
      intro m hm1 hm2
      omega

/-- Pigeonhole: among `|seen| + 1` distinct candidate names one is fresh,
so the probe loop always succeeds within the fuel `uniqueValsStep` gives
it. -/
theorem probeLoop_some (seen : List String) (val : String) :
    ∀ (fuel c : Nat), (∃ j, j < fuel ∧ suffixed val (c + 1 + j) ∉ seen) →
      ∃ out n, probeLoop seen val fuel c = some (out, n) := by
  intro fuel
  induction fuel with
  | zero => intro c h; obtain ⟨j, hj, _⟩ := h; omega
  | succ fuel ih =>
    intro c h
    rw [probeLoop]
    by_cases hmem : suffixed val (c + 1) ∈ seen
    · simp only [if_pos hmem]
      apply ih
      obtain ⟨j, hj, hnot⟩ := h
      match j, hj, hnot with
      | 0, _, hnot => exact absurd hmem (by simpa using hnot)
      | j + 1, hj, hnot =>
        exact ⟨j, by omega, by
          have : c + 1 + (j + 1) = c + 1 + 1 + j := by omega
          exact this ▸ hnot⟩
    · refine ⟨suffixed val (c + 1), c + 1, ?_⟩
      simp [if_neg hmem]

theorem exists_fresh_suffix (seen : List String) (val : String) (c : Nat) :
    ∃ j, j < seen.length + 1 ∧ suffixed val (c + 1 + j) ∉ seen := by
  by_contra hcon
  push_neg at hcon
  have hsub : ∀ j ∈ Finset.range (seen.length + 1),
      suffixed val (c + 1 + j) ∈ seen.toFinset := by
    intro j hj
    rw [List.mem_toFinset]
    exact hcon j (Finset.mem_range.1 hj)
  have hinj : Set.InjOn (fun j => suffixed val (c + 1 + j))
      ↑(Finset.range (seen.length + 1)) := by
    intro a _ b _ hab
    have := suffixed_inj val (c + 1 + a) (c + 1 + b) hab
    omega
  have hcard := Finset.card_le_card_of_injOn _ hsub hinj
  rw [Finset.card_range] at hcard
  have := seen.toFinset_card_le
  omega

/-- The loop invariant tying `suffix_counts` to `unique_values`: every
already-probed suffix of every base name is in the seen set. -/
def DInv (st : DedupeState) : Prop :=
  ∀ v m, 0 < m → m ≤ st.counts v → suffixed v m ∈ st.seen

/-- The three per-index properties of the de-duplication fold, stated for
output `r` on inputs `values` with ambient seen list `s`: the output at
`i` is fresh with respect to `s ++ r.take i`; a not-yet-seen name is kept;
a seen name becomes `f"{name}.{n}"` for the smallest positive `n` whose
suffixed form is not in the seen set. -/
def AuxSpecAt (s values r : List String) (i : Nat) : Prop :=
  (r.getD i "" ∉ s ++ r.take i) ∧
  (values.getD i "" ∉ s ++ r.take i → r.getD i "" = values.getD i "") ∧
  (values.getD i "" ∈ s ++ r.take i →
    ∃ n, 0 < n ∧ r.getD i "" = suffixed (values.getD i "") n ∧
      ∀ m, 0 < m → m < n → suffixed (values.getD i "") m ∈ s ++ r.take i)

/-- `AuxSpecAt` only depends on the seen list up to membership. -/
theorem auxSpecAt_congr (s s2 values r : List String) (i : Nat)
    (hss : ∀ x : String, ∀ l : List String, x ∈ s ++ l ↔ x ∈ s2 ++ l)
    (h : AuxSpecAt s values r i) : AuxSpecAt s2 values r i := by
  obtain ⟨h1, h2, h3⟩ := h
  refine ⟨fun hx => h1 ((hss _ _).2 hx), fun hx => h2 (fun hy => hx ((hss _ _).1 hy)), ?_⟩
  intro hx
  obtain ⟨n, hn, he, hall⟩ := h3 ((hss _ _).2 hx)
  exact ⟨n, hn, he, fun m hm1 hm2 => (hss _ _).1 (hall m hm1 hm2)⟩

/-- Shift an `AuxSpecAt` for the tail run to index `i + 1` of a cons run:
if the head output is `out` and the head seen set gains exactly `out`,
the properties transport verbatim. -/
theorem auxSpecAt_shift (s values r : List String) (val out : String) (j : Nat)
    (h : AuxSpecAt (out :: s) values r j) :
    AuxSpecAt s (val :: values) (out :: r) (j + 1) := by
  have hmemiff : ∀ x : String, ∀ l : List String,
      x ∈ (out :: s) ++ l ↔ x ∈ s ++ (out :: l) := by
    intro x l
    simp only [List.cons_append, List.mem_cons, List.mem_append]
    tauto
  obtain ⟨h1, h2, h3⟩ := h
  have hv : (val :: values).getD (j + 1) "" = values.getD j "" := by simp
  have hr : (out :: r).getD (j + 1) "" = r.getD j "" := by simp
  have ht : (out :: r).take (j + 1) = out :: r.take j := by simp
  refine ⟨?_, ?_, ?_⟩
  · rw [hr, ht]
    intro hx
    exact h1 ((hmemiff _ _).2 hx)
  · rw [hv, hr, ht]
    intro hx
    exact h2 (fun hy => hx ((hmemiff _ _).1 hy))
  · rw [hv, hr, ht]
    intro hx
    obtain ⟨n, hn, he, hall⟩ := h3 ((hmemiff _ _).2 hx)
    exact ⟨n, hn, he, fun m hm1 hm2 => (hmemiff _ _).1 (hall m hm1 hm2)⟩

/-- Main specification of the de-duplication fold, relative to an arbitrary
starting state satisfying the invariant. -/
theorem uniqueValsAux_spec :
    ∀ (values : List String) (st : DedupeState), DInv st →
      (uniqueValsAux st values).length = values.length ∧
      ∀ i, i < values.length →
        AuxSpecAt st.seen values (uniqueValsAux st values) i := by
  intro values
  induction values with
  | nil => intro st _; simp [uniqueValsAux]
  | cons val rest ih =>
    intro st hinv
    by_cases hmem : val ∈ st.seen
    · -- repeat occurrence: the probe loop runs
      obtain ⟨out, n, hloop⟩ :=
        probeLoop_some st.seen val (st.seen.length + 1) (st.counts val)
          (exists_fresh_suffix st.seen val (st.counts val))
      obtain ⟨hout, hcn, hfresh, hbetween⟩ :=
        probeLoop_spec st.seen val (st.seen.length + 1) (st.counts val) out n hloop
      have hstep : uniqueValsStep st val =
          (⟨out :: st.seen, fun v => if v = val then n else st.counts v⟩, out) := by
        rw [uniqueValsStep, if_pos hmem, hloop]
      have hrun : uniqueValsAux st (val :: rest) =
          out :: uniqueValsAux
            ⟨out :: st.seen, fun v => if v = val then n else st.counts v⟩ rest := by
        rw [uniqueValsAux, hstep]
      have hinv' : DInv ⟨out :: st.seen, fun v => if v = val then n else st.counts v⟩ := by
        intro v m hm hle
        show suffixed v m ∈ out :: st.seen
        have hle2 : m ≤ if v = val then n else st.counts v := hle
        by_cases hv : v = val
        · rw [if_pos hv] at hle2
          subst hv
          rcases Nat.lt_or_ge (st.counts v) m with h2 | h2
          · rcases Nat.lt_or_ge m n with h3 | h3
            · exact List.mem_cons_of_mem _ (hbetween m h2 h3)
            · have hmn : m = n := by omega
              subst hmn
              exact hout ▸ List.mem_cons_self _ _
          · exact List.mem_cons_of_mem _ (hinv v m hm h2)
        · rw [if_neg hv] at hle2
          exact List.mem_cons_of_mem _ (hinv v m hm hle2)
      obtain ⟨hlen, hspec⟩ :=
        ih ⟨out :: st.seen, fun v => if v = val then n else st.counts v⟩ hinv'
      constructor
      · rw [hrun]; simpa using hlen
      · intro i hi
        match i with
        | 0 =>
          have hv0 : (val :: rest).getD 0 "" = val := by simp
          have hr0 : (uniqueValsAux st (val :: rest)).getD 0 "" = out := by
            rw [hrun]; simp
          have ht0 : (uniqueValsAux st (val :: rest)).take 0 = [] := by simp
          refine ⟨?_, ?_, ?_⟩
          · rw [hr0, ht0, List.append_nil]
            exact hfresh
          · intro hnot
            rw [hv0, ht0, List.append_nil] at hnot
            exact absurd hmem hnot
          · intro _
            rw [hv0, hr0, ht0, List.append_nil]
            refine ⟨n, by omega, hout, ?_⟩
            intro m hm1 hm2
            rcases Nat.lt_or_ge (st.counts val) m with h2 | h2
            · exact hbetween m h2 hm2
            · exact hinv val m hm1 h2
        | j + 1 =>
          have hj : j < rest.length := by simpa using hi
          have hstail := hspec j hj
          rw [hrun]
          exact auxSpecAt_shift st.seen rest _ val out j hstail
    · -- first occurrence: kept verbatim
      have hstep : uniqueValsStep st val = (⟨val :: st.seen, st.counts⟩, val) := by
        rw [uniqueValsStep, if_neg hmem]
      have hrun : uniqueValsAux st (val :: rest) =
          val :: uniqueValsAux ⟨val :: st.seen, st.counts⟩ rest := by
        rw [uniqueValsAux, hstep]
      have hinv' : DInv ⟨val :: st.seen, st.counts⟩ := by
        intro v m hm hle
        exact List.mem_cons_of_mem _ (hinv v m hm hle)
      obtain ⟨hlen, hspec⟩ := ih ⟨val :: st.seen, st.counts⟩ hinv'
      constructor
      · rw [hrun]; simpa using hlen
      · intro i hi
        match i with
        | 0 =>
          have hv0 : (val :: rest).getD 0 "" = val := by simp
          have hr0 : (uniqueValsAux st (val :: rest)).getD 0 "" = val := by
            rw [hrun]; simp
          have ht0 : (uniqueValsAux st (val :: rest)).take 0 = [] := by simp
          refine ⟨?_, ?_, ?_⟩
          · rw [hr0, ht0, List.append_nil]
            exact hmem
          · intro _
            rw [hv0, hr0]
          · intro hin
            rw [hv0, ht0, List.append_nil] at hin
            exact absurd hin hmem
        | j + 1 =>
          have hj : j < rest.length := by simpa using hi
          have hstail := hspec j hj
          rw [hrun]
          exact auxSpecAt_shift st.seen rest _ val val j hstail

theorem dInv_init : DInv ⟨[], fun _ => 0⟩ := by
  intro v m hm hle
  have h0 : m ≤ 0 := hle
  omega

theorem unique_vals_length (values : List String) :
    (unique_vals values).length = values.length :=
  (uniqueValsAux_spec values ⟨[], fun _ => 0⟩ dInv_init).1

theorem unique_vals_spec_at (values : List String) :
    ∀ i, i < values.length → AuxSpecAt [] values (unique_vals values) i := by
  intro i hi
  exact (uniqueValsAux_spec values ⟨[], fun _ => 0⟩ dInv_init).2 i hi

theorem unique_vals_fresh (values : List String) :
    ∀ i, i < values.length →
      (unique_vals values).getD i "" ∉ (unique_vals values).take i := by
  intro i hi
  have h := (unique_vals_spec_at values i hi).1
  simpa using h

/-- The output of `_unique_vals` has pairwise-distinct entries. -/
theorem unique_vals_nodup (values : List String) : (unique_vals values).Nodup := by
  have hfresh := unique_vals_fresh values
  have hlen := unique_vals_length values
  have key : ∀ (l : List String),
      (∀ i, i < l.length → l.getD i "" ∉ l.take i) → l.Nodup := by
    intro l
    induction l with
    | nil => intro _; simp
    | cons a t iht =>
      intro h
      rw [List.nodup_cons]
      constructor
      · intro hmem
        obtain ⟨j, hj, hja⟩ := List.mem_iff_getElem.1 hmem
        have := h (j + 1) (by simpa using hj)
        rw [List.take_succ_cons] at this
        apply this
        have : t.getD (j + 1 - 1) "" = a := by
          simp [List.getD_eq_getElem?_getD, hja.symm ▸ List.getElem?_eq_getElem hj, hja]
        simp only [Nat.add_sub_cancel] at this
        rw [show (a :: t).getD (j + 1) "" = t.getD j "" from by simp]
        rw [this]
        exact List.mem_cons_self _ _
      · apply iht
        intro i hilt
        have := h (i + 1) (by simpa using hilt)
        rw [List.take_succ_cons] at this
        intro hmem
        apply this
        rw [show (a :: t).getD (i + 1) "" = t.getD i "" from by simp]
        exact List.mem_cons_of_mem _ hmem
  apply key
  intro i hilt
  exact hfresh i (by omega)

/-! ## CSV reading (the standard-library collaborator, modelled)

`csv.reader` / `csv.DictReader` are external collaborators of the core
(quoting/escaping are delegated to them); they are modelled for the plain
comma-separated, newline-separated dialect without quoting. -/

/-- Split a character list at every occurrence of `sep` (text splitting,
defined over the character list so that it evaluates by kernel
reduction). -/
def splitCharAux (sep : Char) : List Char → List (List Char)
  | [] => [[]]
  | c :: cs =>
    match splitCharAux sep cs with
    | [] => [[]]
    | h :: t => if c = sep then [] :: h :: t else (c :: h) :: t

/-- Split a string at every occurrence of the character `sep`. -/
def splitChar (sep : Char) (s : String) : List String :=
  (splitCharAux sep s.data).map (fun l => String.mk l)

/-- One `csv.reader` record: a blank line yields the empty record,
otherwise the line is split on commas. -/
def splitCSVLine (line : String) : List String :=
  if line = "" then [] else splitChar ',' line

/-- `csv.reader` over a text blob: a list of field records (one per
newline-separated line). -/
def csvRows (text : String) : List (List String) :=
  (splitChar '\n' text).map splitCSVLine

/-- One `csv.DictReader` record: zip the fieldnames with the record's
fields; fieldnames beyond the record's length take the rest value
(Python's `None`, standing in as the empty string: it equals itself and
is distinct from the key set of interest only through `columns`), and
surplus fields live under Python's non-string rest key, which no string
column name can address, hence are dropped. -/
def buildRow (fieldnames fields : List String) : Row :=
  (fieldnames.zip
      (fields ++ List.replicate (fieldnames.length - fields.length) "")).foldl
    (fun acc e => insertPy acc e.1 e.2) []

/-- `csv.DictReader(file, fieldnames)`: with `none` the first record (even
a blank one) becomes the fieldnames; blank data records are skipped. -/
def dictRead (text : String) (fieldnames : Option (List String)) : List Row :=
  match fieldnames with
  | none =>
    match csvRows text with
    | [] => []
    | header :: rest => (rest.filter (fun r => !r.isEmpty)).map (buildRow header)
  | some fns => ((csvRows text).filter (fun r => !r.isEmpty)).map (buildRow fns)

/-! ## `CSVParser` (csv_parser.py) -/

/-- The state of a `CSVParser` instance.  The `_encoding` field and the
file-system side of `from_file` / `write_to_file` are I/O concerns not
represented in the embedding (`from_file` funnels the decoded text into
`from_csv_text`, which is what is embedded). -/
structure CSVParser where
  list_of_dicts : List Row
  column_names : List String
  file_text : String
  _index_column : String
  file_path : String
deriving DecidableEq

/-- Python truthiness of the optional `column_names` argument:
`not column_names` holds for both `None` and the empty list. -/
def pyFalsy : Option (List String) → Bool
  | none => true
  | some cs => cs.isEmpty

/-- `CSVParser._get_column_names_from_header_row`. -/
def get_column_names_from_header_row (file_text : String) : List String :=
  match csvRows file_text with
  | [] => []
  | header :: _ => unique_vals header

/-- `CSVParser.from_csv_text`.  (The `TypeError` guard on non-string
column names cannot fire here: every name is a `String` by type.)  Note
the source hands the *original* `column_names` argument to `DictReader`,
so an explicit empty list means: columns from the header, rows keyed by
nothing. -/
def from_csv_text (file_text : String) (column_names : Option (List String)) :
    CSVParser :=
  { list_of_dicts := dictRead file_text column_names
    column_names :=
      if pyFalsy column_names then get_column_names_from_header_row file_text
      else column_names.getD []
    file_text := file_text
    _index_column := ""
    file_path := "init from text" }

/-- `CSVParser.from_lines`. -/
def from_lines (csv_lines : List String) (column_names : Option (List String)) :
    CSVParser :=
  { from_csv_text (String.intercalate "\n" csv_lines) column_names with
      file_path := "init from lines" }

/-- Python `str.strip()`: drop leading and trailing whitespace
characters (defined over the character list so that it evaluates by
kernel reduction). -/
def pyStrip (s : String) : String :=
  String.mk
    (((s.data.dropWhile Char.isWhitespace).reverse.dropWhile
        Char.isWhitespace).reverse)

/-- The row rebuild done by `strip_whitespace`'s dict comprehension:
keys and values stripped, later bindings overwriting earlier ones that
collapse to the same stripped key (the `isinstance` guards always pass,
as all cells are strings here). -/
def stripRow (row : Row) : Row :=
  row.foldl (fun acc e => insertPy acc (pyStrip e.1) (pyStrip e.2)) []

/-- `CSVParser.strip_whitespace`. -/
def strip_whitespace (p : CSVParser) : CSVParser :=
  { p with
    list_of_dicts := p.list_of_dicts.map stripRow
    column_names := p.column_names.map pyStrip
    _index_column := pyStrip p._index_column }

/-- `CSVParser.get_rows`. -/
def get_rows (p : CSVParser) (column_name row_value : String) : List Row :=
  if column_name ∈ p.column_names then
    p.list_of_dicts.filter (fun row => lookupPy row column_name == some row_value)
  else []

/-- `CSVParser.get_row` (`{}` when there is no match). -/
def get_row (p : CSVParser) (column_name row_value : String) : Row :=
  (get_rows p column_name row_value).headD []

/-- `CSVParser.row_values_in_column` (`x.get(column_name, "")`). -/
def row_values_in_column (p : CSVParser) (column_name : String) : List String :=
  if column_name ∈ p.column_names then
    p.list_of_dicts.map (fun row => (lookupPy row column_name).getD "")
  else []

/-- The `CSVParser.index_column` property getter; a `ValueError` when the
dataset has no columns.  `self._index_column or self.column_names[0]`
follows Python truthiness: the empty string is falsy, so an explicitly
set empty name also falls back to the first column. -/
def index_column (p : CSVParser) : Except String String :=
  if p.column_names.isEmpty then
    Except.error "No columns available to set or get the index column"
  else
    Except.ok (if p._index_column = "" then p.column_names.headD "" else p._index_column)

/-- The success path of the `CSVParser.index_column` setter: record the
name, de-duplicate the values found in that column, and write them back
row by row — into `self.index_column`, the getter's answer, which is the
first column whenever the stored name is the falsy empty string. -/
def index_column_set_core (p : CSVParser) (value : String) : CSVParser :=
  let p1 : CSVParser := { p with _index_column := value }
  let row_vals := unique_vals (row_values_in_column p1 value)
  let target := if value = "" then p1.column_names.headD "" else value
  { p1 with
    list_of_dicts := (p1.list_of_dicts.zip row_vals).map
      (fun e => insertPy e.1 target e.2) }

/-- The `CSVParser.index_column` property setter. -/
def index_column_set (p : CSVParser) (value : String) : Except String CSVParser :=
  if p.column_names.isEmpty then
    Except.error "No columns available to set the index column"
  else if value ∉ p.column_names then
    Except.error ("Column '" ++ value ++ "' not found in column names")
  else
    Except.ok (index_column_set_core p value)

/-- `CSVParser.get_value`: reads through the index-column getter, which
raises when the dataset has no columns. -/
def get_value (p : CSVParser) (row_value_in_index_column column_name : String) :
    Except String String :=
  (index_column p).map
    (fun ic => (lookupPy (get_row p ic row_value_in_index_column) column_name).getD "")

/-- `get_value` as invoked from `CSVComparer.compare`, where the validated
key column guarantees non-empty columns so the getter cannot fail
(`get_value_ok` below); the error branch is unreachable there. -/
def get_value_in_compare (p : CSVParser) (rv cn : String) : String :=
  match get_value p rv cn with
  | Except.ok v => v
  | Except.error _ => ""

theorem get_value_ok (p : CSVParser) (rv cn : String)
    (h : p.column_names ≠ []) :
    get_value p rv cn = Except.ok (get_value_in_compare p rv cn) := by
  have hne : ¬ p.column_names.isEmpty := by
    simpa [List.isEmpty_iff] using h
  simp [get_value, get_value_in_compare, index_column, hne, Except.map]

/-! ## `CSVCompareOutput` and `CSVComparer` (comparer.py) -/

/-- One entry of `mismatched_rows`: the dict
`{"row": …, "column": …, "first": …, "second": …}`. -/
structure Mismatch where
  row : String
  column : String
  first : String
  second : String
deriving DecidableEq

/-- The `CSVCompareOutput` dataclass. -/
structure CSVCompareOutput where
  match_result : Bool
  first_file : String
  second_file : String
  extra_cols_in_first_file : List String
  extra_cols_in_second_file : List String
  extra_rows_in_first_file : List String
  extra_rows_in_second_file : List String
  mismatched_rows : List Mismatch
deriving DecidableEq

/-- The `CSVComparer` state: exactly two parsers. -/
structure CSVComparer where
  first_file : CSVParser
  second_file : CSVParser

/-- `set(l)` as a canonical duplicate-free list (a Python set iterates in
unspecified order; every property below is order-insensitive). -/
def pySet (l : List String) : List String := l.dedup

/-- Python `repr` of a list of strings as interpolated into the
validation message f-strings (`['a', 'b']`; quote escaping inside the
names themselves is not modelled). -/
def pyListRepr (l : List String) : String :=
  "[" ++ String.intercalate ", " (l.map (fun c => "'" ++ c ++ "'")) ++ "]"

/-- Steps 3–8 of `CSVComparer.compare`: the set differences, the
mismatch scan over common rows × common columns, and the derived
`match_result` (`not any([...])`). -/
def compare_core (first second : CSVParser) (index_column : String) :
    CSVCompareOutput :=
  let first_cols := pySet first.column_names
  let second_cols := pySet second.column_names
  let first_rows := pySet (row_values_in_column first index_column)
  let second_rows := pySet (row_values_in_column second index_column)
  let extra_cols_in_first_file := first_cols.filter (fun x => decide (x ∉ second_cols))
  let extra_cols_in_second_file := second_cols.filter (fun x => decide (x ∉ first_cols))
  let extra_rows_in_first_file := first_rows.filter (fun x => decide (x ∉ second_rows))
  let extra_rows_in_second_file := second_rows.filter (fun x => decide (x ∉ first_rows))
  let common_columns := first_cols.filter (fun x => decide (x ∈ second_cols))
  let common_rows := first_rows.filter (fun x => decide (x ∈ second_rows))
  let mismatched_rows := common_rows.flatMap (fun row =>
    common_columns.filterMap (fun column =>
      let first_val := get_value_in_compare first row column
      let second_val := get_value_in_compare second row column
      if first_val ≠ second_val then
        some ⟨row, column, first_val, second_val⟩
      else none))
  { match_result :=
      extra_cols_in_first_file.isEmpty && extra_cols_in_second_file.isEmpty &&
      extra_rows_in_first_file.isEmpty && extra_rows_in_second_file.isEmpty &&
      mismatched_rows.isEmpty
    first_file := first.file_path
    second_file := second.file_path
    extra_cols_in_first_file := extra_cols_in_first_file
    extra_cols_in_second_file := extra_cols_in_second_file
    extra_rows_in_first_file := extra_rows_in_first_file
    extra_rows_in_second_file := extra_rows_in_second_file
    mismatched_rows := mismatched_rows }

/-- `CSVComparer.compare`: validation of the key column against both
sides, the two index-column assignments, then the pure diff. -/
def compare (cmp : CSVComparer) (index_column : String) :
    Except String CSVCompareOutput :=
  if index_column ∉ cmp.first_file.column_names then
    Except.error ("Index column '" ++ index_column ++
      "' not found in first file. Available columns: " ++
      pyListRepr cmp.first_file.column_names)
  else if index_column ∉ cmp.second_file.column_names then
    Except.error ("Index column '" ++ index_column ++
      "' not found in second file. Available columns: " ++
      pyListRepr cmp.second_file.column_names)
  else do
    let first ← index_column_set cmp.first_file index_column
    let second ← index_column_set cmp.second_file index_column
    pure (compare_core first second index_column)

theorem index_column_set_ok (p : CSVParser) (value : String)
    (h : value ∈ p.column_names) :
    index_column_set p value = Except.ok (index_column_set_core p value) := by
  have hne : ¬ p.column_names.isEmpty := by
    simp [List.isEmpty_iff]
    exact List.ne_nil_of_mem h
  simp [index_column_set, hne, h]

theorem compare_ok (cmp : CSVComparer) (ic : String)
    (h1 : ic ∈ cmp.first_file.column_names)
    (h2 : ic ∈ cmp.second_file.column_names) :
    compare cmp ic = Except.ok
      (compare_core (index_column_set_core cmp.first_file ic)
        (index_column_set_core cmp.second_file ic) ic) := by
  rw [compare, if_neg (by simpa using h1), if_neg (by simpa using h2),
    index_column_set_ok _ _ h1, index_column_set_ok _ _ h2]
  rfl

/-! ## `NullCSVParser` (csv_parser.py lines 382–430)

The null-object subclass: same state shape, `"null"` sentinel origin,
every mutation overridden to a no-op, every read overridden to return an
empty value, and the `index_column` getter overridden to return the
stored (never-changing, initially empty) name without the base class's
fallback-or-raise behaviour. -/

/-- The `NullCSVParser` state. -/
structure NullCSVParser where
  list_of_dicts : List Row
  column_names : List String
  file_text : String
  _index_column : String
  file_path : String

/-- `NullCSVParser.__init__`. -/
def NullCSVParser.init : NullCSVParser := ⟨[], [], "", "", "null"⟩

def NullCSVParser.strip_whitespace (p : NullCSVParser) : NullCSVParser := p

def NullCSVParser.apply_transform (p : NullCSVParser) (_column_name : String)
    (_func : Row → String) : NullCSVParser := p

def NullCSVParser.drop_columns (p : NullCSVParser)
    (_column_names : List String) : NullCSVParser := p

def NullCSVParser.drop_rows_by (p : NullCSVParser)
    (_predicate : Row → Bool) : NullCSVParser := p

def NullCSVParser.drop_rows (p : NullCSVParser) (_column_name : String)
    (_row_values : List String) : NullCSVParser := p

def NullCSVParser.row_values_in_column (_p : NullCSVParser)
    (_column_name : String) : List String := []

def NullCSVParser.get_value (_p : NullCSVParser)
    (_row_value_in_index_column _column_name : String) : String := ""

def NullCSVParser.set_value (p : NullCSVParser)
    (_row_value_in_index_column _column_name _new_value : String) :
    NullCSVParser := p

/-- The overriding `index_column` getter: no fallback, no failure. -/
def NullCSVParser.index_column (p : NullCSVParser) : String := p._index_column

/-- The overriding `index_column` setter: a no-op. -/
def NullCSVParser.index_column_set (p : NullCSVParser) (_value : String) :
    NullCSVParser := p

/-- `NullCSVParser.write_to_file`: a no-op (no file effect, no failure). -/
def NullCSVParser.write_to_file (p : NullCSVParser) : NullCSVParser := p

/-! ## Structural lemmas about `compare` -/

theorem compare_error_inv (cmp : CSVComparer) (ic : String)
    (out : CSVCompareOutput) (h : compare cmp ic = Except.ok out) :
    ic ∈ cmp.first_file.column_names ∧ ic ∈ cmp.second_file.column_names ∧
      out = compare_core (index_column_set_core cmp.first_file ic)
        (index_column_set_core cmp.second_file ic) ic := by
  by_cases h1 : ic ∈ cmp.first_file.column_names
  · by_cases h2 : ic ∈ cmp.second_file.column_names
    · rw [compare_ok cmp ic h1 h2] at h
      exact ⟨h1, h2, (Except.ok.inj h).symm⟩
    · rw [compare, if_neg (not_not_intro h1), if_pos h2] at h
      simp at h
  · rw [compare, if_pos h1] at h
    simp at h

theorem compare_core_match_result_iff (f s : CSVParser) (ic : String) :
    (compare_core f s ic).match_result = true ↔
      ((compare_core f s ic).extra_cols_in_first_file = [] ∧
       (compare_core f s ic).extra_cols_in_second_file = [] ∧
       (compare_core f s ic).extra_rows_in_first_file = [] ∧
       (compare_core f s ic).extra_rows_in_second_file = [] ∧
       (compare_core f s ic).mismatched_rows = []) := by
  simp only [compare_core, Bool.and_eq_true, List.isEmpty_iff]
  tauto

theorem compare_core_extra_cols_first (f s : CSVParser) (ic : String) :
    (compare_core f s ic).extra_cols_in_first_file =
      (pySet f.column_names).filter
        (fun x => decide (x ∉ pySet s.column_names)) := rfl

theorem compare_core_extra_cols_second (f s : CSVParser) (ic : String) :
    (compare_core f s ic).extra_cols_in_second_file =
      (pySet s.column_names).filter
        (fun x => decide (x ∉ pySet f.column_names)) := rfl

theorem index_column_set_core_columns (p : CSVParser) (value : String) :
    (index_column_set_core p value).column_names = p.column_names := rfl

/-- Self-difference of a Python set is empty. -/
theorem filter_not_mem_self (l : List String) :
    l.filter (fun x => decide (x ∉ l)) = [] := by
  rw [List.filter_eq_nil_iff]
  intro a ha
  simp [ha]

/-- Comparing equal parser states produces the all-clear output. -/
theorem compare_core_self (f : CSVParser) (ic : String) :
    compare_core f f ic =
      { match_result := true
        first_file := f.file_path
        second_file := f.file_path
        extra_cols_in_first_file := []
        extra_cols_in_second_file := []
        extra_rows_in_first_file := []
        extra_rows_in_second_file := []
        mismatched_rows := [] } := by
  have hmm : ∀ (rows colsl : List String),
      (rows.flatMap (fun row => colsl.filterMap (fun column =>
        let first_val := get_value_in_compare f row column
        let second_val := get_value_in_compare f row column
        if first_val ≠ second_val then
          some ⟨row, column, first_val, second_val⟩
        else none)) : List Mismatch) = [] := by
    intro rows colsl
    rw [List.flatMap_eq_nil_iff]
    intro row _
    rw [List.filterMap_eq_nil_iff]
    intro column _
    simp
  show CSVCompareOutput.mk _ _ _ _ _ _ _ _ = CSVCompareOutput.mk _ _ _ _ _ _ _ _
  rw [filter_not_mem_self (pySet f.column_names),
    filter_not_mem_self (pySet (row_values_in_column f ic)), hmm]
  rfl

/-! ## Structural lemmas about `strip_whitespace` -/

/-- The last entry of a row whose stripped key is `t` — the binding that
survives the dict comprehension in `strip_whitespace`. -/
def lastTrimMatch (t : String) : Row → Option (String × String)
  | [] => none
  | e :: r =>
    match lastTrimMatch t r with
    | some e2 => some e2
    | none => if pyStrip e.1 = t then some e else none

theorem lookup_stripFold (row : Row) (t : String) :
    ∀ acc : Row,
      lookupPy (row.foldl (fun a e => insertPy a (pyStrip e.1) (pyStrip e.2)) acc) t =
        match lastTrimMatch t row with
        | some e => some (pyStrip e.2)
        | none => lookupPy acc t := by
  induction row with
  | nil => intro acc; simp [lastTrimMatch]
  | cons e r ih =>
    intro acc
    rw [List.foldl_cons, ih]
    show _ = (match lastTrimMatch t (e :: r) with
      | some e2 => some (pyStrip e2.2)
      | none => lookupPy acc t)
    rw [show lastTrimMatch t (e :: r) =
      (match lastTrimMatch t r with
        | some e2 => some e2
        | none => if pyStrip e.1 = t then some e else none) from rfl]
    cases hr : lastTrimMatch t r with
    | some e2 => rfl
    | none =>
      by_cases he : pyStrip e.1 = t
      · rw [if_pos he]
        show lookupPy (insertPy acc (pyStrip e.1) (pyStrip e.2)) t = some (pyStrip e.2)
        rw [he]
        exact lookupPy_insertPy_self acc t (pyStrip e.2)
      · rw [if_neg he]
        show lookupPy (insertPy acc (pyStrip e.1) (pyStrip e.2)) t = lookupPy acc t
        exact lookupPy_insertPy_other acc (pyStrip e.1) (pyStrip e.2) t
          (fun hh => he hh.symm)

theorem lookup_stripRow (row : Row) (t : String) :
    lookupPy (stripRow row) t =
      (lastTrimMatch t row).map (fun e => pyStrip e.2) := by
  rw [stripRow, lookup_stripFold row t []]
  cases hr : lastTrimMatch t row with
  | some e2 => rfl
  | none => rfl

theorem mem_rowKeys_stripFold (row : Row) (t : String) :
    ∀ acc : Row,
      (t ∈ rowKeys (row.foldl (fun a e => insertPy a (pyStrip e.1) (pyStrip e.2)) acc) ↔
        (t ∈ rowKeys acc ∨ ∃ e ∈ row, pyStrip e.1 = t)) := by
  induction row with
  | nil => intro acc; simp
  | cons e r ih =>
    intro acc
    rw [List.foldl_cons, ih]
    rw [rowKeys_insertPy]
    constructor
    · rintro (⟨h | h⟩ | h)
      · exact Or.inl h
      · exact Or.inr ⟨e, List.mem_cons_self _ _, h.symm⟩
      · obtain ⟨e2, he2, hs⟩ := h
        exact Or.inr ⟨e2, List.mem_cons_of_mem _ he2, hs⟩
    · rintro (h | ⟨e2, he2, hs⟩)
      · exact Or.inl (Or.inl h)
      · rcases List.mem_cons.1 he2 with h2 | h2
        · subst h2
          exact Or.inl (Or.inr hs.symm)
        · exact Or.inr ⟨e2, h2, hs⟩

theorem nodup_rowKeys_stripFold (row : Row) :
    ∀ acc : Row, (rowKeys acc).Nodup →
      (rowKeys (row.foldl (fun a e => insertPy a (pyStrip e.1) (pyStrip e.2)) acc)).Nodup := by
  induction row with
  | nil => intro acc h; simpa using h
  | cons e r ih =>
    intro acc h
    rw [List.foldl_cons]
    exact ih _ (nodup_rowKeys_insertPy acc _ _ h)

theorem count_rowKeys_stripRow (row : Row) (t : String)
    (h : ∃ e ∈ row, pyStrip e.1 = t) :
    (rowKeys (stripRow row)).count t = 1 := by
  have hmem : t ∈ rowKeys (stripRow row) := by
    rw [stripRow, mem_rowKeys_stripFold row t []]
    exact Or.inr h
  have hnd : (rowKeys (stripRow row)).Nodup :=
    nodup_rowKeys_stripFold row [] (by simp [rowKeys])
  have hle := List.nodup_iff_count_le_one.1 hnd t
  have hge := List.count_pos_iff.2 hmem
  omega

/-! ## Fixtures for witnesses -/

def exParser : CSVParser := from_lines ["c1,c2", "r1,v1", "r2,v2"] none

def exParserB : CSVParser := from_lines ["c1,c3", "r1,w1"] none

def exOutput : CSVCompareOutput :=
  compare_core (index_column_set_core exParser "c1")
    (index_column_set_core exParser "c1") "c1"

def exOutputB : CSVCompareOutput :=
  compare_core (index_column_set_core exParser "c1")
    (index_column_set_core exParserB "c1") "c1"

/-! ## The claims -/

/-- C1: `_unique_vals`, applied to an ordered list of raw names, keeps a
name not yet in the seen set unchanged and renames a repeat occurrence to
the smallest-suffix name `f"{name}.{n}"` not already in the seen set
(re-probing past literal collisions); the seen set when position `i` is
processed consists exactly of the outputs so far, `[] ++ result.take i`.
In particular `["a","a","a"] → ["a","a.1","a.2"]` and
`["a","a.1","a"] → ["a","a.1","a.2"]`. -/
theorem c1_unique_vals_smallest_suffix :
    (unique_vals ["a", "a", "a"] = ["a", "a.1", "a.2"] ∧
      unique_vals ["a", "a.1", "a"] = ["a", "a.1", "a.2"]) ∧
    ∀ values : List String,
      (unique_vals values).length = values.length ∧
      ∀ i, i < values.length → AuxSpecAt [] values (unique_vals values) i :=
  ⟨⟨by decide, by decide⟩, fun values =>
    ⟨unique_vals_length values, unique_vals_spec_at values⟩⟩

theorem c1_unique_vals_smallest_suffix_witness :
    AuxSpecAt [] ["a", "a.1", "a"] (unique_vals ["a", "a.1", "a"]) 2 :=
  (c1_unique_vals_smallest_suffix.2 ["a", "a.1", "a"]).2 2 (by decide)

/-- C2: in every result returned by `compare`, `match_result` is true iff
the four extra collections and `mismatched_rows` are all empty. -/
theorem c2_match_result_iff_empty (cmp : CSVComparer) (ic : String)
    (out : CSVCompareOutput) (h : compare cmp ic = Except.ok out) :
    (out.match_result = true ↔
      (out.extra_cols_in_first_file = [] ∧
       out.extra_cols_in_second_file = [] ∧
       out.extra_rows_in_first_file = [] ∧
       out.extra_rows_in_second_file = [] ∧
       out.mismatched_rows = [])) := by
  obtain ⟨h1, h2, hout⟩ := compare_error_inv cmp ic out h
  subst hout
  exact compare_core_match_result_iff _ _ _

theorem c2_match_result_iff_empty_witness :
    compare ⟨exParser, exParser⟩ "c1" = Except.ok exOutput ∧
      (exOutput.match_result = true ↔
        (exOutput.extra_cols_in_first_file = [] ∧
         exOutput.extra_cols_in_second_file = [] ∧
         exOutput.extra_rows_in_first_file = [] ∧
         exOutput.extra_rows_in_second_file = [] ∧
         exOutput.mismatched_rows = [])) := by
  have h : compare ⟨exParser, exParser⟩ "c1" = Except.ok exOutput :=
    compare_ok ⟨exParser, exParser⟩ "c1" (by decide) (by decide)
  exact ⟨h, c2_match_result_iff_empty ⟨exParser, exParser⟩ "c1" exOutput h⟩

/-- C3: `compare(key_column)` fails, with a message naming the missing
side and listing that side's available columns, exactly when the key is
absent from the first dataset's columns or from the second's; when the
key is present in both it always returns a result. -/
theorem c3_compare_validation (cmp : CSVComparer) (ic : String) :
    (ic ∉ cmp.first_file.column_names →
      compare cmp ic = Except.error ("Index column '" ++ ic ++
        "' not found in first file. Available columns: " ++
        pyListRepr cmp.first_file.column_names)) ∧
    (ic ∈ cmp.first_file.column_names → ic ∉ cmp.second_file.column_names →
      compare cmp ic = Except.error ("Index column '" ++ ic ++
        "' not found in second file. Available columns: " ++
        pyListRepr cmp.second_file.column_names)) ∧
    (ic ∈ cmp.first_file.column_names → ic ∈ cmp.second_file.column_names →
      ∃ out, compare cmp ic = Except.ok out) := by
  refine ⟨?_, ?_, ?_⟩
  · intro h1
    rw [compare, if_pos h1]
  · intro h1 h2
    rw [compare, if_neg (not_not_intro h1), if_pos h2]
  · intro h1 h2
    exact ⟨_, compare_ok cmp ic h1 h2⟩

theorem c3_compare_validation_witness :
    compare ⟨exParser, exParserB⟩ "c2" = Except.error ("Index column '" ++ "c2" ++
      "' not found in second file. Available columns: " ++
      pyListRepr exParserB.column_names) :=
  (c3_compare_validation ⟨exParser, exParserB⟩ "c2").2.1 (by decide) (by decide)

/-- C4: in every result of `compare`, `columns_only_in_first` is, as an
unordered collection, the set difference first.columns − second.columns,
`columns_only_in_second` its mirror image, and the two are disjoint. -/
theorem c4_extra_cols_set_difference (cmp : CSVComparer) (ic : String)
    (out : CSVCompareOutput) (h : compare cmp ic = Except.ok out) :
    (∀ c, c ∈ out.extra_cols_in_first_file ↔
        (c ∈ cmp.first_file.column_names ∧ c ∉ cmp.second_file.column_names)) ∧
    (∀ c, c ∈ out.extra_cols_in_second_file ↔
        (c ∈ cmp.second_file.column_names ∧ c ∉ cmp.first_file.column_names)) ∧
    (∀ c, c ∈ out.extra_cols_in_first_file → c ∉ out.extra_cols_in_second_file) := by
  obtain ⟨h1, h2, hout⟩ := compare_error_inv cmp ic out h
  subst hout
  have key1 : ∀ c, c ∈ (compare_core (index_column_set_core cmp.first_file ic)
      (index_column_set_core cmp.second_file ic) ic).extra_cols_in_first_file ↔
      (c ∈ cmp.first_file.column_names ∧ c ∉ cmp.second_file.column_names) := by
    intro c
    rw [compare_core_extra_cols_first, index_column_set_core_columns,
      index_column_set_core_columns]
    simp [pySet, List.mem_filter]
  have key2 : ∀ c, c ∈ (compare_core (index_column_set_core cmp.first_file ic)
      (index_column_set_core cmp.second_file ic) ic).extra_cols_in_second_file ↔
      (c ∈ cmp.second_file.column_names ∧ c ∉ cmp.first_file.column_names) := by
    intro c
    rw [compare_core_extra_cols_second, index_column_set_core_columns,
      index_column_set_core_columns]
    simp [pySet, List.mem_filter]
  refine ⟨key1, key2, ?_⟩
  intro c hc
  rw [key2]
  rw [key1] at hc
  tauto

theorem c4_extra_cols_set_difference_witness :
    ("c2" ∈ exOutputB.extra_cols_in_first_file ↔
      ("c2" ∈ exParser.column_names ∧ "c2" ∉ exParserB.column_names)) ∧
    ("c3" ∈ exOutputB.extra_cols_in_second_file ↔
      ("c3" ∈ exParserB.column_names ∧ "c3" ∉ exParser.column_names)) ∧
    ("c2" ∈ exOutputB.extra_cols_in_first_file →
      "c2" ∉ exOutputB.extra_cols_in_second_file) :=
  have h := c4_extra_cols_set_difference ⟨exParser, exParserB⟩ "c1" exOutputB
    (compare_ok ⟨exParser, exParserB⟩ "c1" (by decide) (by decide))
  ⟨h.1 "c2", h.2.1 "c3", h.2.2 "c2"⟩

/-- Reading back the column just rewritten by the index-column setter
returns exactly the written values. -/
theorem map_lookup_insert (rows : List Row) (vals : List String) (value : String)
    (hlen : vals.length ≤ rows.length) :
    ((rows.zip vals).map (fun e => insertPy e.1 value e.2)).map
      (fun row => (lookupPy row value).getD "") = vals := by
  rw [List.map_map]
  have hcong : ∀ e ∈ rows.zip vals,
      ((fun row => (lookupPy row value).getD "") ∘
        (fun e => insertPy e.1 value e.2)) e = Prod.snd e := by
    intro e _
    show (lookupPy (insertPy e.1 value e.2) value).getD "" = e.2
    rw [lookupPy_insertPy_self]
    rfl
  rw [List.map_congr_left hcong]
  exact List.map_snd_zip _ _ hlen

theorem index_column_set_core_rows (p : CSVParser) (value : String) :
    (index_column_set_core p value).list_of_dicts =
      (p.list_of_dicts.zip (unique_vals (row_values_in_column p value))).map
        (fun e => insertPy e.1
          (if value = "" then p.column_names.headD "" else value) e.2) := rfl

/-- C5 (amended): for every dataset and every name present in its columns
which is either non-empty or equal to the first column name, setting that
name as the index column succeeds and the values stored in that column
across all rows are pairwise distinct.  (For the falsy empty-string name
with a different first column, the rewrite lands in the first column and
the claim fails — see the counterexample.) -/
theorem c5_index_values_nodup (p : CSVParser) (value : String)
    (hmem : value ∈ p.column_names)
    (hval : value ≠ "" ∨ p.column_names.headD "" = value) :
    ∃ p2, index_column_set p value = Except.ok p2 ∧
      (row_values_in_column p2 value).Nodup := by
  refine ⟨index_column_set_core p value, index_column_set_ok p value hmem, ?_⟩
  have htarget : (if value = "" then p.column_names.headD "" else value) = value := by
    by_cases hv : value = ""
    · rw [if_pos hv]
      rcases hval with h | h
      · exact absurd hv h
      · exact h
    · rw [if_neg hv]
  have hlen : (unique_vals (row_values_in_column p value)).length ≤
      p.list_of_dicts.length := by
    rw [unique_vals_length, row_values_in_column, if_pos hmem, List.length_map]
  rw [row_values_in_column, index_column_set_core_columns, if_pos hmem,
    index_column_set_core_rows, htarget,
    map_lookup_insert p.list_of_dicts _ value hlen]
  exact unique_vals_nodup _

theorem c5_index_values_nodup_witness :
    ∃ p', index_column_set exParser "c1" = Except.ok p' ∧
      (row_values_in_column p' "c1").Nodup :=
  c5_index_values_nodup exParser "c1" (by decide) (Or.inl (by decide))

/-- C5, as stated, is false on the code: `""` is a legal column name, and
setting it as the index column stores it but — through the falsy-string
fallback `self._index_column or self.column_names[0]` inside the write
loop — rewrites the de-duplicated values into the *first* column, leaving
the empty-named column's duplicated values untouched. -/
theorem c5_counterexample :
    "" ∈ (from_lines ["a,", "x,k", "y,k"] none).column_names ∧
    index_column_set (from_lines ["a,", "x,k", "y,k"] none) "" =
      Except.ok (index_column_set_core (from_lines ["a,", "x,k", "y,k"] none) "") ∧
    row_values_in_column
      (index_column_set_core (from_lines ["a,", "x,k", "y,k"] none) "") "" =
      ["k", "k"] ∧
    ¬ (row_values_in_column
        (index_column_set_core (from_lines ["a,", "x,k", "y,k"] none) "") "").Nodup :=
  ⟨by decide, rfl, by decide, by decide⟩

/-- C6 (amended): when the caller supplies no explicit column names
(`None` or an empty list), the columns of a dataset built by the raw-text
or line-list factory are duplicate-free; explicitly supplied names are
used verbatim and may contain duplicates (see the counterexample). -/
theorem c6_columns_nodup (cols : Option (List String)) (h : pyFalsy cols = true) :
    (∀ file_text, (from_csv_text file_text cols).column_names.Nodup) ∧
    (∀ csv_lines, (from_lines csv_lines cols).column_names.Nodup) := by
  have key : ∀ t : String, (from_csv_text t cols).column_names.Nodup := by
    intro t
    show (if pyFalsy cols then get_column_names_from_header_row t
      else cols.getD []).Nodup
    rw [if_pos h, get_column_names_from_header_row]
    cases hcr : csvRows t with
    | nil => simp
    | cons header rest => exact unique_vals_nodup header
  exact ⟨key, fun csv_lines => key _⟩

theorem c6_columns_nodup_witness :
    (from_csv_text "a,a" none).column_names.Nodup :=
  (c6_columns_nodup none (by decide)).1 "a,a"

/-- C6, as stated, is false on the code: caller-supplied explicit column
names are used verbatim, so a duplicated explicit list survives into
`column_names`. -/
theorem c6_counterexample :
    (from_csv_text "x,y" (some ["a", "a"])).column_names = ["a", "a"] ∧
    ¬ (from_csv_text "x,y" (some ["a", "a"])).column_names.Nodup :=
  ⟨by decide, by decide⟩

/-- C7: comparing two datasets independently built from the same raw text
(with the same optional explicit column names) on any key present in
their columns yields `matched = true` with all four difference
collections and the mismatch list empty. -/
theorem c7_compare_self (text : String) (cols : Option (List String)) (key : String)
    (h : key ∈ (from_csv_text text cols).column_names) :
    ∃ out, compare ⟨from_csv_text text cols, from_csv_text text cols⟩ key =
        Except.ok out ∧
      out.match_result = true ∧
      out.extra_cols_in_first_file = [] ∧ out.extra_cols_in_second_file = [] ∧
      out.extra_rows_in_first_file = [] ∧ out.extra_rows_in_second_file = [] ∧
      out.mismatched_rows = [] := by
  refine ⟨_, compare_ok ⟨from_csv_text text cols, from_csv_text text cols⟩ key h h, ?_⟩
  show (compare_core (index_column_set_core (from_csv_text text cols) key)
      (index_column_set_core (from_csv_text text cols) key) key).match_result = true ∧ _
  rw [compare_core_self]
  exact ⟨rfl, rfl, rfl, rfl, rfl, rfl⟩

theorem c7_compare_self_witness :
    ∃ out, compare ⟨from_csv_text "c1,c2\nr1,v1" none,
        from_csv_text "c1,c2\nr1,v1" none⟩ "c1" = Except.ok out ∧
      out.match_result = true ∧
      out.extra_cols_in_first_file = [] ∧ out.extra_cols_in_second_file = [] ∧
      out.extra_rows_in_first_file = [] ∧ out.extra_rows_in_second_file = [] ∧
      out.mismatched_rows = [] :=
  c7_compare_self "c1,c2\nr1,v1" none "c1" (by decide)

/-- C8 (amended): on a dataset with at least one column, reading a single
cell never fails, and returns the empty string when no row carries the
key value in the current index column or when the matched row lacks the
requested column.  (On a zero-column dataset the read raises the
index-column state error — see the counterexample.) -/
theorem c8_get_value_total (p : CSVParser) (rv cn : String)
    (h : p.column_names ≠ []) :
    ∃ ic v, index_column p = Except.ok ic ∧ get_value p rv cn = Except.ok v ∧
      ((get_rows p ic rv = [] ∨ lookupPy (get_row p ic rv) cn = none) → v = "") := by
  have hne : ¬ p.column_names.isEmpty := by
    simpa [List.isEmpty_iff] using h
  refine ⟨if p._index_column = "" then p.column_names.headD "" else p._index_column,
    (lookupPy (get_row p (if p._index_column = "" then p.column_names.headD ""
      else p._index_column) rv) cn).getD "", ?_, ?_, ?_⟩
  · rw [index_column, if_neg hne]
  · rw [get_value, index_column, if_neg hne]
    rfl
  · rintro (hrows | hlook)
    · simp only [get_row]
      rw [hrows]
      simp [lookupPy]
    · rw [hlook]
      rfl

theorem c8_get_value_total_witness :
    ∃ ic v, index_column exParser = Except.ok ic ∧
      get_value exParser "zz" "c9" = Except.ok v ∧
      ((get_rows exParser ic "zz" = [] ∨
        lookupPy (get_row exParser ic "zz") "c9" = none) → v = "") :=
  c8_get_value_total exParser "zz" "c9" (by decide)

/-- C8, as stated ("including on a dataset with zero columns"), is false
on the code: on a zero-column dataset the read raises the index-column
state error instead of returning empty text. -/
theorem c8_counterexample :
    (from_csv_text "" none).column_names = [] ∧
    get_value (from_csv_text "" none) "x" "y" =
      Except.error "No columns available to set or get the index column" :=
  ⟨by decide, rfl⟩

/-- C9: on the null dataset variant every mutation (strip whitespace,
transform, column/row drops, single-cell write, write-back, index-column
assignment) returns the state unchanged, every read (row values in a
column, single-cell read) returns an empty value, the origin identifier
is the `"null"` sentinel, and the index-column getter yields the stored —
initially empty — name rather than failing or falling back to a first
column. -/
theorem c9_null_parser_contract :
    (∀ p : NullCSVParser, p.strip_whitespace = p) ∧
    (∀ (p : NullCSVParser) (cn : String) (f : Row → String),
      p.apply_transform cn f = p) ∧
    (∀ (p : NullCSVParser) (cns : List String), p.drop_columns cns = p) ∧
    (∀ (p : NullCSVParser) (pred : Row → Bool), p.drop_rows_by pred = p) ∧
    (∀ (p : NullCSVParser) (cn : String) (rvs : List String),
      p.drop_rows cn rvs = p) ∧
    (∀ (p : NullCSVParser) (rv cn nv : String), p.set_value rv cn nv = p) ∧
    (∀ p : NullCSVParser, p.write_to_file = p) ∧
    (∀ (p : NullCSVParser) (v : String), p.index_column_set v = p) ∧
    (∀ (p : NullCSVParser) (cn : String), p.row_values_in_column cn = []) ∧
    (∀ (p : NullCSVParser) (rv cn : String), p.get_value rv cn = "") ∧
    NullCSVParser.init.file_path = "null" ∧
    NullCSVParser.init.column_names = [] ∧
    NullCSVParser.init.index_column = "" :=
  ⟨fun _ => rfl, fun _ _ _ => rfl, fun _ _ => rfl, fun _ _ => rfl,
    fun _ _ _ => rfl, fun _ _ _ _ => rfl, fun _ => rfl, fun _ _ => rfl,
    fun _ _ => rfl, fun _ _ _ => rfl, rfl, rfl, rfl⟩

/-- C10: if a dataset's columns contain two distinct names that strip to
the same text `t`, then `strip_whitespace` keeps both stripped names in
the columns list (`t` occurs at least twice, so the list acquires a
duplicate), while in every row holding a cell under a name stripping to
`t` the stripped row binds `t` exactly once, to the stripped value of the
*last* such cell in the row — the earlier cell's value is lost. -/
theorem c10_strip_collapses_columns (p : CSVParser) (k1 k2 : String)
    (h1 : k1 ∈ p.column_names) (h2 : k2 ∈ p.column_names) (hne : k1 ≠ k2)
    (hstrip : pyStrip k1 = pyStrip k2) :
    (2 ≤ (strip_whitespace p).column_names.count (pyStrip k1) ∧
      ¬ (strip_whitespace p).column_names.Nodup) ∧
    ((strip_whitespace p).list_of_dicts = p.list_of_dicts.map stripRow ∧
      ∀ row ∈ p.list_of_dicts,
        (∃ e ∈ row, pyStrip e.1 = pyStrip k1) →
          ((rowKeys (stripRow row)).count (pyStrip k1) = 1 ∧
            lookupPy (stripRow row) (pyStrip k1) =
              (lastTrimMatch (pyStrip k1) row).map (fun e => pyStrip e.2))) := by
  have hcols : (strip_whitespace p).column_names = p.column_names.map pyStrip := rfl
  have hcount : 2 ≤ (strip_whitespace p).column_names.count (pyStrip k1) := by
    rw [hcols]
    obtain ⟨l1, l2, hl⟩ := List.append_of_mem h1
    rw [hl] at h2
    have hk2 : k2 ∈ l1 ∨ k2 ∈ l2 := by
      rcases List.mem_append.1 h2 with h | h
      · exact Or.inl h
      · rcases List.mem_cons.1 h with h | h
        · exact absurd h.symm hne
        · exact Or.inr h
    rw [hl, List.map_append, List.map_cons, List.count_append, List.count_cons]
    have hpos : 0 < (l1.map pyStrip).count (pyStrip k1) ∨
        0 < (l2.map pyStrip).count (pyStrip k1) := by
      rcases hk2 with h | h
      · exact Or.inl (List.count_pos_iff.2
          (hstrip ▸ List.mem_map_of_mem pyStrip h))
      · exact Or.inr (List.count_pos_iff.2
          (hstrip ▸ List.mem_map_of_mem pyStrip h))
    have : (pyStrip k1 == pyStrip k1) = true := by simp
    rw [this, if_pos rfl]
    omega
  refine ⟨⟨hcount, ?_⟩, rfl, ?_⟩
  · intro hnd
    have := List.nodup_iff_count_le_one.1 hnd (pyStrip k1)
    omega
  · intro row _ hex
    exact ⟨count_rowKeys_stripRow row (pyStrip k1) hex, lookup_stripRow row (pyStrip k1)⟩

theorem c10_strip_collapses_columns_witness :
    (2 ≤ (strip_whitespace (from_lines ["a, a", "1,2"] none)).column_names.count
        (pyStrip "a") ∧
      ¬ (strip_whitespace (from_lines ["a, a", "1,2"] none)).column_names.Nodup) ∧
    ((strip_whitespace (from_lines ["a, a", "1,2"] none)).list_of_dicts =
        (from_lines ["a, a", "1,2"] none).list_of_dicts.map stripRow ∧
      ∀ row ∈ (from_lines ["a, a", "1,2"] none).list_of_dicts,
        (∃ e ∈ row, pyStrip e.1 = pyStrip "a") →
          ((rowKeys (stripRow row)).count (pyStrip "a") = 1 ∧
            lookupPy (stripRow row) (pyStrip "a") =
              (lastTrimMatch (pyStrip "a") row).map (fun e => pyStrip e.2))) :=
  c10_strip_collapses_columns (from_lines ["a, a", "1,2"] none) "a" " a"
    (by decide) (by decide) (by decide) (by decide)

end CsvDiff
